import Mathlib

/-!
Verification development for the session synchronization and streaming
subsystem of claude-mux.  It gives a shallow embedding, in Lean, of

* the polling change watcher over the sessions directory (`SessionWatcher`),
* the reliable WebSocket channel (`ReliableWebSocket`,
  `websocket-base.svelte.ts`),
* the output stream channel (`TerminalStore`, `terminal.svelte.ts`), and
* the project-tree derivation (`projectTree` on the main page),

together with theorems settling behavioural claims about them.

Embedding conventions: timers are explicit optional fields of the state (a
pending timer is `some _`); socket event handlers are transition functions
guarded by the presence of the socket handle — the stores null every handler
exactly when they discard the handle, so detaching the handlers is embedded
as dropping the handle; the event loop is a step function over the possible
asynchronous events; outbound traffic is accumulated in a `sent` list;
`Date.now()` readings and the `Math.random()` jitter are passed in as
parameters of the transitions that sample them.
-/

namespace ClaudeMux

/-! ### A model of JSON values and of `JSON.parse`

The model covers the wire frames this application exchanges: flat JSON —
`null`, booleans, integers, escape-free strings, and arrays/objects whose
members are such primitives.  Its purpose is to decide which text frames
`JSON.parse` accepts: in particular it rejects bare non-JSON text such as
the keep-alive sentinel `"pong"`, exactly as `JSON.parse` does. -/

inductive JValue where
  | null
  | bool (b : Bool)
  | num (n : Int)
  | str (s : String)
  | arr (elems : List JValue)
  | obj (fields : List (String × JValue))

/-- The double-quote character. -/
def quoteChar : Char := Char.ofNat 34

/-- The backslash character (string escapes are not modelled; a frame
containing one is outside the modelled wire grammar). -/
def backslashChar : Char := Char.ofNat 92

/-- The opening-brace character. -/
def lbraceChar : Char := Char.ofNat 123

/-- The closing-brace character. -/
def rbraceChar : Char := Char.ofNat 125

/-- The opening-bracket character. -/
def lbrackChar : Char := Char.ofNat 91

/-- The closing-bracket character. -/
def rbrackChar : Char := Char.ofNat 93

/-- The colon character. -/
def colonChar : Char := Char.ofNat 58

/-- The comma character. -/
def commaChar : Char := Char.ofNat 44

/-- The minus character. -/
def minusChar : Char := Char.ofNat 45

/-- JSON insignificant whitespace. -/
def isJsonWs (c : Char) : Bool :=
  c.toNat = 32 || c.toNat = 9 || c.toNat = 10 || c.toNat = 13

/-- Drop leading JSON whitespace. -/
def skipWs : List Char → List Char
  | [] => []
  | c :: cs => if isJsonWs c then skipWs cs else c :: cs

/-- Parse the remainder of a JSON string after its opening quote. -/
def parseStrRest : List Char → Option (String × List Char)
  | [] => none
  | c :: cs =>
    if c = quoteChar then some ("", cs)
    else if c = backslashChar then none
    else
      match parseStrRest cs with
      | some (s, rest) => some (String.mk (c :: s.data), rest)
      | none => none

/-- Parse a nonempty run of decimal digits. -/
def parseDigits (cs : List Char) : Option (Nat × List Char) :=
  let ds := cs.takeWhile (fun c => c.isDigit)
  if ds.isEmpty then none
  else some (ds.foldl (fun n c => 10 * n + (c.toNat - 48)) 0,
    cs.dropWhile (fun c => c.isDigit))

/-- Parse a primitive JSON value (null, boolean, integer or string). -/
def parsePrim (cs0 : List Char) : Option (JValue × List Char) :=
  match skipWs cs0 with
  | 'n' :: 'u' :: 'l' :: 'l' :: rest => some (JValue.null, rest)
  | 't' :: 'r' :: 'u' :: 'e' :: rest => some (JValue.bool true, rest)
  | 'f' :: 'a' :: 'l' :: 's' :: 'e' :: rest => some (JValue.bool false, rest)
  | c :: rest =>
    if c = quoteChar then
      match parseStrRest rest with
      | some (s, rest1) => some (JValue.str s, rest1)
      | none => none
    else if c = minusChar then
      match parseDigits rest with
      | some (n, rest1) => some (JValue.num (-(n : Int)), rest1)
      | none => none
    else
      match parseDigits (c :: rest) with
      | some (n, rest1) => some (JValue.num (n : Int), rest1)
      | none => none
  | [] => none

/-- Parse the members of a JSON object after its opening brace
(at least one member; the empty object is handled by the caller).
Fuel decreases on every recursive call, and every call consumes at least
one character, so character count plus one is sufficient fuel. -/
def parseMembers : Nat → List Char → Option (List (String × JValue) × List Char)
  | 0, _ => none
  | fuel + 1, cs =>
    match skipWs cs with
    | [] => none
    | c :: rest =>
      if c = quoteChar then
        match parseStrRest rest with
        | none => none
        | some (key, rest1) =>
          match skipWs rest1 with
          | [] => none
          | c1 :: rest2 =>
            if c1 = colonChar then
              match parsePrim rest2 with
              | none => none
              | some (v, rest3) =>
                match skipWs rest3 with
                | [] => none
                | c2 :: rest4 =>
                  if c2 = commaChar then
                    match parseMembers fuel rest4 with
                    | some (ms, rest5) => some ((key, v) :: ms, rest5)
                    | none => none
                  else if c2 = rbraceChar then some ([(key, v)], rest4)
                  else none
            else none
      else none

/-- Parse the elements of a JSON array after its opening bracket
(at least one element; the empty array is handled by the caller). -/
def parseElems : Nat → List Char → Option (List JValue × List Char)
  | 0, _ => none
  | fuel + 1, cs =>
    match parsePrim cs with
    | none => none
    | some (v, rest) =>
      match skipWs rest with
      | [] => none
      | c :: rest1 =>
        if c = commaChar then
          match parseElems fuel rest1 with
          | some (vs, rest2) => some (v :: vs, rest2)
          | none => none
        else if c = rbrackChar then some ([v], rest1)
        else none

/-- Parse one JSON value. -/
def parseVal (cs : List Char) : Option (JValue × List Char) :=
  match skipWs cs with
  | [] => none
  | c :: rest =>
    if c = lbraceChar then
      match skipWs rest with
      | [] => none
      | c1 :: rest1 =>
        if c1 = rbraceChar then some (JValue.obj [], rest1)
        else
          match parseMembers (rest.length + 1) rest with
          | some (ms, rest2) => some (JValue.obj ms, rest2)
          | none => none
    else if c = lbrackChar then
      match skipWs rest with
      | [] => none
      | c1 :: rest1 =>
        if c1 = rbrackChar then some (JValue.arr [], rest1)
        else
          match parseElems (rest.length + 1) rest with
          | some (vs, rest2) => some (JValue.arr vs, rest2)
          | none => none
    else parsePrim (c :: rest)

/-- Model of `JSON.parse` on a text frame: parse one value and require that
only whitespace remains; any other input raises a `SyntaxError`. -/
def jsonParse (data : String) : Except String JValue :=
  match parseVal data.data with
  | some (v, rest) =>
    if (skipWs rest).isEmpty then Except.ok v
    else Except.error "SyntaxError: Unexpected token"
  | none => Except.error "SyntaxError: Unexpected token"

/-- Property access `v.key` on a parsed JSON value: defined exactly for
object fields, `none` models the JavaScript `undefined` result on any
non-null non-object value.  (Access on `null` throws; the caller handles
that case separately.) -/
def jGet : JValue → String → Option JValue
  | JValue.obj fields, key => fields.lookup key
  | _, _ => none

/-! ### Change Watcher (`SessionWatcher`)

The watcher polls the sessions directory every 500 ms, diffs modification
times against the previous snapshot and, when anything changed, notifies
every subscriber once.  The filesystem as observed during one poll is
embedded as a `DirView`: `dir = none` models `readdirSync` throwing
(directory missing or unreadable), `mtime f = none` models `statSync`
throwing for file `f` (file deleted during iteration). -/

structure DirView where
  dir : Option (List String)
  mtime : String → Option Nat

namespace SessionWatcher

/-- The poll interval, ms. -/
def pollInterval : Nat := 500

/-- Model of `checkForChanges`: rebuild the name-to-mtime snapshot and
detect added, modified and removed records.  Returns the new snapshot and
the dirty flag.  As in the source, the removed-file check sits inside the
same `try` block as `readdirSync`, so it is skipped when the directory
listing fails; the `catch` then leaves `changed` as `false` and the
snapshot is replaced with the (empty) `newState`. -/
def checkForChanges (lastState : List (String × Nat)) (view : DirView) :
    List (String × Nat) × Bool :=
  match view.dir with
  | none => ([], false)
  | some files =>
    let r := files.foldl
      (fun (acc : List (String × Nat) × Bool) (file : String) =>
        if !file.endsWith ".json" then acc
        else
          match view.mtime file with
          | none => acc
          | some m =>
            let newState := acc.1 ++ [(file, m)]
            match lastState.lookup file with
            | none => (newState, true)
            | some oldMtime => (newState, acc.2 || (oldMtime != m)))
      ([], false)
    let changed := lastState.foldl
      (fun c p => c || (r.1.lookup p.1).isNone) r.2
    (r.1, changed)

/-- Model of one subscriber callback run: `none` means it returned
normally, `some e` that it threw with message `e` (which the dispatcher
catches and logs). -/
def notifySubscribers {α : Type} (run : α → Option String) :
    List α → List (α × Option String)
  | [] => []
  | c :: rest => (c, run c) :: notifySubscribers run rest

/-- Watcher state: the subscriber set (as an insertion-ordered list, as a
JavaScript `Set` iterates), the poll timer, and the last snapshot. -/
structure State (α : Type) where
  subscribers : List α
  pollTimer : Bool
  lastState : List (String × Nat)

/-- One tick of the poll interval:
`if (this.checkForChanges()) this.notifySubscribers()`.
Returns the new state and the dispatch log of the notification, one entry
per invoked subscriber with its caught outcome. -/
def pollTick {α : Type} (s : State α) (view : DirView)
    (run : α → Option String) : State α × List (α × Option String) :=
  let r := checkForChanges s.lastState view
  if r.2 then
    ({ s with lastState := r.1 }, notifySubscribers run s.subscribers)
  else
    ({ s with lastState := r.1 }, [])

end SessionWatcher

/-! ### Reliable Channel (`ReliableWebSocket`) -/

structure WebSocketConfig where
  pingInterval : Nat
  pongTimeout : Nat
  baseReconnectDelay : Nat
  maxReconnectDelay : Nat
  deriving DecidableEq

/-- The defaults of `websocket-base.svelte.ts`. -/
def DEFAULT_CONFIG : WebSocketConfig :=
  { pingInterval := 30000, pongTimeout := 10000,
    baseReconnectDelay := 1000, maxReconnectDelay := 30000 }

/-- WebSocket ready states, named as the `WebSocket` constants. -/
inductive ReadyState where
  | CONNECTING
  | OPEN
  | CLOSING
  | CLOSED
  deriving DecidableEq

/-- The SvelteKit `browser` environment flag: these stores run in the
client runtime, where it is `true`. -/
def browser : Bool := true

/-- State of a reliable channel.  `ws = some r` is a live socket handle in
ready state `r` with all four handlers attached (the store nulls every
handler exactly when it discards the handle); `delivered` records the
payloads passed through to the subclass `handleMessage` hook; `sent`
records frames sent on the socket. -/
structure RWState where
  connected : Bool
  ws : Option ReadyState
  pingTimer : Bool
  reconnectTimer : Option ℚ
  lastPong : Nat
  reconnectAttempts : Nat
  visibilityHandler : Bool
  delivered : List String
  sent : List String
  deriving DecidableEq

namespace ReliableWebSocket

/-- Model of `doConnect`: no-op outside the browser or when a socket
handle already exists, otherwise open a fresh socket (ready state
`CONNECTING`) with the handlers attached. -/
def doConnect (s : RWState) : RWState :=
  if !browser || s.ws.isSome then s
  else { s with ws := some ReadyState.CONNECTING }

/-- Model of `scheduleReconnect` with the sampled jitter
(`Math.random() * 1000`, a real in `[0, 1000)`) passed in: a no-op when a
reconnect timer is already pending; otherwise compute the backoff delay
`min(base * 2 ^ attempts + jitter, max)`, increment the attempt counter
and arm the timer. -/
def scheduleReconnect (cfg : WebSocketConfig) (jitter : ℚ) (s : RWState) :
    RWState :=
  if s.reconnectTimer.isSome then s
  else
    let delay : ℚ :=
      min ((cfg.baseReconnectDelay : ℚ) * 2 ^ s.reconnectAttempts + jitter)
        (cfg.maxReconnectDelay : ℚ)
    { s with reconnectTimer := some delay,
             reconnectAttempts := s.reconnectAttempts + 1 }

/-- Model of the `onopen` handler (`now` is the `Date.now()` reading):
mark connected, reset the attempt counter and the pong clock, cancel any
pending reconnect timer, start the ping timer and install the visibility
handler. -/
def onOpen (now : Nat) (s : RWState) : RWState :=
  { s with ws := some ReadyState.OPEN, connected := true,
           reconnectAttempts := 0, lastPong := now,
           reconnectTimer := none, pingTimer := true,
           visibilityHandler := true }

/-- Model of the `onmessage` handler: a bare `"pong"` frame only refreshes
the pong clock and returns; every other frame is handed to the subclass
`handleMessage` hook, recorded in `delivered`. -/
def onMessage (now : Nat) (data : String) (s : RWState) : RWState :=
  if data = "pong" then { s with lastPong := now }
  else { s with delivered := s.delivered ++ [data] }

/-- Model of the `onclose` handler, with the subclass `shouldReconnect`
answer and the jitter sample passed in: drop the handle, stop the ping
timer and, when reconnection is allowed, schedule it. -/
def onClose (cfg : WebSocketConfig) (shouldRec : Bool) (jitter : ℚ)
    (s : RWState) : RWState :=
  let s1 := { s with connected := false, ws := none, pingTimer := false }
  if shouldRec then scheduleReconnect cfg jitter s1 else s1

/-- Model of `doDisconnect`: cancel the reconnect timer, stop the ping
timer, remove the visibility handler, reset the counters, null the four
socket handlers and close and drop the handle. -/
def doDisconnect (s : RWState) : RWState :=
  { s with reconnectTimer := none, pingTimer := false,
           visibilityHandler := false, connected := false,
           reconnectAttempts := 0, ws := none }

/-- Model of `forceReconnect`: reset the attempt counter, discard the
socket without letting its `onclose` run, stop the ping timer and connect
again immediately. -/
def forceReconnect (s : RWState) : RWState :=
  doConnect { s with reconnectAttempts := 0, ws := none,
                     pingTimer := false, connected := false }

/-- Model of one ping-interval tick: on an open socket, force a close when
no pong arrived within `pingInterval + pongTimeout`, otherwise send a
ping probe. -/
def pingTick (cfg : WebSocketConfig) (now : Nat) (s : RWState) : RWState :=
  if s.ws = some ReadyState.OPEN then
    if now - s.lastPong > cfg.pingInterval + cfg.pongTimeout then
      { s with ws := some ReadyState.CLOSING }
    else { s with sent := s.sent ++ ["ping"] }
  else s

/-- Model of the reconnect timer firing: clear the pending timer and
connect. -/
def reconnectFire (s : RWState) : RWState :=
  doConnect { s with reconnectTimer := none }

/-- Model of the `visibilitychange` handler on a transition (`visible`)
with the `shouldReconnect` answer passed in: force a reconnect when the
socket is missing or not open, otherwise probe it with a ping. -/
def visibilityChange (visible : Bool) (shouldRec : Bool) (s : RWState) :
    RWState :=
  if visible && shouldRec then
    if s.ws ≠ some ReadyState.OPEN then forceReconnect s
    else { s with sent := s.sent ++ ["ping"] }
  else s

/-- The asynchronous events that can reach a reliable channel: its two
timers, the visibility signal, and the four socket callbacks. -/
inductive Event where
  | reconnectFire
  | pingTick (now : Nat)
  | visibilityChange (visible : Bool)
  | sockOpen (now : Nat)
  | sockMessage (now : Nat) (data : String)
  | sockClose (jitter : ℚ)
  | sockError

/-- Event dispatch: a timer can fire only while pending, the visibility
handler only while installed, and a socket callback only while the handle
(with its handlers) is held.  `sockError` models the `onerror` handler,
which merely closes the socket (`onclose` follows as a later event). -/
def step (cfg : WebSocketConfig) (shouldRec : Bool) (s : RWState) :
    Event → RWState
  | Event.reconnectFire =>
    if s.reconnectTimer.isSome then reconnectFire s else s
  | Event.pingTick now => if s.pingTimer then pingTick cfg now s else s
  | Event.visibilityChange v =>
    if s.visibilityHandler then visibilityChange v shouldRec s else s
  | Event.sockOpen now => if s.ws.isSome then onOpen now s else s
  | Event.sockMessage now d => if s.ws.isSome then onMessage now d s else s
  | Event.sockClose j => if s.ws.isSome then onClose cfg shouldRec j s else s
  | Event.sockError =>
    if s.ws.isSome then { s with ws := some ReadyState.CLOSING } else s

end ReliableWebSocket

/-! ### Output Stream Channel (`TerminalStore`) -/

/-- Outbound frames of the output stream channel. -/
inductive OutFrame where
  | resize (cols rows : Nat)
  deriving DecidableEq

/-- State of the output stream channel.  The output buffer holds the last
JSON `output` value received (the JavaScript field is dynamically typed;
the wire contract makes it a string, initially `""`).  The reconnect timer
holds its fixed delay in ms; the resize timer holds the captured size and
its debounce delay in ms. -/
structure TermState where
  output : JValue
  connected : Bool
  ws : Option ReadyState
  reconnectTimer : Option Nat
  target : Option String
  resizeTimer : Option (Nat × Nat × Nat)
  lastSentSize : Option (Nat × Nat)
  sent : List OutFrame

namespace TerminalStore

/-- Model of `connect(target)`: a no-op outside the browser or for a falsy
(absent or empty) target; a no-op when a socket is held and the target is
unchanged; otherwise cancel any pending reconnect timer, tear the old
socket down synchronously (null its handlers, close it, drop the handle),
clear the output buffer when the target differs from the old one, store
the target and open a fresh socket. -/
def connect (s : TermState) (target : Option String) : TermState :=
  match target with
  | none => s
  | some t =>
    if !browser || t = "" then s
    else if s.ws.isSome && s.target = some t then s
    else
      let s1 := { s with reconnectTimer := none }
      let s2 := { s1 with ws := none }
      let s3 :=
        if s2.target ≠ some t then { s2 with output := JValue.str "" } else s2
      { s3 with target := some t, connected := false,
                ws := some ReadyState.CONNECTING }

/-- Model of `disconnect()`: cancel the reconnect timer and the resize
timer, forget the last sent size, clear the target (preventing the
reconnect path), null the socket handlers and close and drop the handle. -/
def disconnect (s : TermState) : TermState :=
  { s with reconnectTimer := none, resizeTimer := none, lastSentSize := none,
           target := none, connected := false, ws := none }

/-- Model of the `onopen` handler. -/
def onOpen (s : TermState) : TermState := { s with connected := true }

/-- Model of the `onmessage` handler: `JSON.parse` the frame — which
throws on non-JSON text such as the bare keep-alive sentinel `"pong"` —
then, when the parsed value has a defined `output` property, replace the
output buffer with it.  An `Except.error` result models an exception
escaping the handler, leaving the state unchanged. -/
def onMessage (s : TermState) (data : String) : Except String TermState :=
  match jsonParse data with
  | Except.error e => Except.error e
  | Except.ok JValue.null =>
    Except.error "TypeError: null has no properties"
  | Except.ok v =>
    match jGet v "output" with
    | some o => Except.ok { s with output := o }
    | none => Except.ok s

/-- Model of the `onclose` handler: drop the handle and, when a target is
still set, arm the fixed 2 s reconnect timer. -/
def onClose (s : TermState) : TermState :=
  let s1 := { s with connected := false, ws := none }
  match s1.target with
  | some t => if t = "" then s1 else { s1 with reconnectTimer := some 2000 }
  | none => s1

/-- Model of the reconnect timer firing: `connect(this.target)`.  (The
fired handle is dead; `connect` also clears the field.) -/
def reconnectFire (s : TermState) : TermState :=
  connect { s with reconnectTimer := none } s.target

/-- The debounce delay of `sendResize`, ms. -/
def RESIZE_DEBOUNCE : Nat := 150

/-- Model of `sendResize(cols, rows)`: a no-op without an open socket or
when the size equals the last size actually sent; otherwise cancel any
pending resize timer and arm a fresh one capturing this size. -/
def sendResize (s : TermState) (cols rows : Nat) : TermState :=
  if s.ws ≠ some ReadyState.OPEN then s
  else if s.lastSentSize = some (cols, rows) then s
  else { s with resizeTimer := some (cols, rows, RESIZE_DEBOUNCE) }

/-- Model of the resize timer firing: when the socket is open, send the
captured size and record it as the last sent size; clear the timer. -/
def resizeFire (s : TermState) : TermState :=
  match s.resizeTimer with
  | none => s
  | some (cols, rows, _) =>
    if s.ws = some ReadyState.OPEN then
      { s with sent := s.sent ++ [OutFrame.resize cols rows],
               lastSentSize := some (cols, rows), resizeTimer := none }
    else { s with resizeTimer := none }

/-- The asynchronous events that can reach the output stream channel. -/
inductive Event where
  | reconnectFire
  | resizeFire
  | sockOpen
  | sockMessage (data : String)
  | sockClose
  | sockError

/-- Event dispatch for the output stream channel.  A message whose
handling throws (non-JSON frame) leaves the state unchanged; the `onerror`
handler is an installed no-op (`onclose` follows as a later event). -/
def step (s : TermState) : Event → TermState
  | Event.reconnectFire =>
    if s.reconnectTimer.isSome then reconnectFire s else s
  | Event.resizeFire => if s.resizeTimer.isSome then resizeFire s else s
  | Event.sockOpen => if s.ws.isSome then onOpen s else s
  | Event.sockMessage d =>
    if s.ws.isSome then
      match onMessage s d with
      | Except.ok s1 => s1
      | Except.error _ => s
    else s
  | Event.sockClose => if s.ws.isSome then onClose s else s
  | Event.sockError => s

end TerminalStore

/-! ### Project tree derivation (main page, `projectTree`)

The main page derives, from the pushed session list (plus the saved
projects), a tree of projects grouped by working directory: it collects
the distinct `cwd` strings (a JavaScript `Set`), sorts them
lexicographically, re-sorts by length (shorter first, stable), and builds
nodes in that order, wiring each node to the already-built node of the
longest `potentialParent` such that `cwd.startsWith(potentialParent + '/')`.
The source builds nested records with mutable `children` arrays; the tree
shape is equivalently embedded by giving each node its parent's `cwd`
(`none` for a root) and its depth.  The per-node `sessions` grouping plays
no role in the tree shape and is not embedded. -/

/-- Model of the JavaScript test `s.startsWith(p)`, via character lists. -/
def jsStartsWith (s p : String) : Bool := p.data.isPrefixOf s.data

/-- Lexicographic order on character lists by code point, modelling the
default JavaScript sort comparator (which compares code units; the two
agree on the characters at hand, and any tie between equal-length distinct
strings is irrelevant to the tree shape proved below). -/
def charListLe : List Char → List Char → Bool
  | [], _ => true
  | _ :: _, [] => false
  | a :: as, b :: bs =>
    if a.toNat < b.toNat then true
    else if b.toNat < a.toNat then false
    else charListLe as bs

/-- The default JavaScript string comparison used by `[...].sort()`. -/
def jsLe (a b : String) : Bool := charListLe a.data b.data

structure ProjectNode where
  cwd : String
  parentCwd : Option String
  depth : Nat
  deriving DecidableEq

/-- Model of `allProjects`: the distinct non-empty session `cwd`s plus the
saved projects, sorted lexicographically (`[...projects].sort()`).  The
JavaScript `Set` keeps first-insertion order; since the result is
immediately sorted and duplicate-free, `dedup` is an equivalent model. -/
def allProjects (sessionCwds saved : List String) : List String :=
  List.insertionSort (fun a b => jsLe a b = true)
    ((sessionCwds.filter (fun c => c != "") ++ saved).dedup)

/-- Model of the length sort `[...projects].sort((a, b) => a.length - b.length)`
(stable, shorter first). -/
def sortByLen (l : List String) : List String :=
  List.insertionSort (fun a b => a.length ≤ b.length) l

/-- One iteration of the parent-search loop body of `projectTree`. -/
def findParentStep (nodeMap : List ProjectNode) (cwd : String)
    (parent : Option ProjectNode) (potentialParent : String) :
    Option ProjectNode :=
  if potentialParent = cwd then parent
  else if jsStartsWith cwd (potentialParent ++ "/") then
    match nodeMap.find? (fun n => n.cwd == potentialParent) with
    | some parentNode =>
      match parent with
      | none => some parentNode
      | some cur =>
        if cur.cwd.length < potentialParent.length then some parentNode
        else parent
    | none => parent
  else parent

/-- Model of the parent search of `projectTree`: scan every candidate in
the sorted list, keeping the longest one that is already in `nodeMap` and
whose slash-extension is a prefix of `cwd`. -/
def findParent (nodeMap : List ProjectNode) (sorted : List String)
    (cwd : String) : Option ProjectNode :=
  sorted.foldl (findParentStep nodeMap cwd) none

/-- The node built for the current project `cwd`: its parent pointer and
depth come from the parent search over the nodes built so far. -/
def mkNode (nodeMap : List ProjectNode) (sorted : List String)
    (cwd : String) : ProjectNode :=
  { cwd := cwd,
    parentCwd := (findParent nodeMap sorted cwd).map (fun n => n.cwd),
    depth := match findParent nodeMap sorted cwd with
             | some p => p.depth + 1
             | none => 0 }

/-- The node-building loop of `projectTree`: process the length-sorted
cwds in order, appending each new node (with its parent pointer and depth)
to the node map. -/
def buildNodesGo (sorted : List String) (nodeMap : List ProjectNode) :
    List String → List ProjectNode
  | [] => nodeMap
  | cwd :: rest =>
    buildNodesGo sorted (nodeMap ++ [mkNode nodeMap sorted cwd]) rest

def buildNodes (sorted : List String) : List ProjectNode :=
  buildNodesGo sorted [] sorted

/-- Model of `projectTree`, flattened to the list of nodes with parent
pointers (roots are the nodes with `parentCwd = none`). -/
def projectTree (sessionCwds saved : List String) : List ProjectNode :=
  buildNodes (sortByLen (allProjects sessionCwds saved))

/-- The parent relation the tree realizes: the parent `cwd` assigned to
project `cwd` (`none` both for roots and for strings that are not
projects). -/
def parentCwdOf (sessionCwds saved : List String) (cwd : String) :
    Option String :=
  match (projectTree sessionCwds saved).find? (fun n => n.cwd == cwd) with
  | some n => n.parentCwd
  | none => none

/-- Parent eligibility as the code computes it: `p` is a project distinct
from `cwd` and `p ++ "/"` is a prefix of `cwd` — the remaining suffix may
be empty. -/
def Elig (projects : List String) (cwd p : String) : Prop :=
  p ∈ projects ∧ p ≠ cwd ∧ jsStartsWith cwd (p ++ "/") = true

/-- Parent eligibility as the claim words it: `cwd` equals `p` plus a path
separator plus a nonempty suffix. -/
def specEligible (p cwd : String) : Prop :=
  ∃ suffix, suffix ≠ "" ∧ cwd = p ++ "/" ++ suffix

/-! ## Theorems -/

/-- C1: once `disconnect()` returns on the Reliable Channel or the Output
Stream Channel, no further callback of that channel fires — `disconnect()`
cancels every pending timer (reconnect, keep-alive, resize debounce) and
detaches all socket handlers synchronously before returning, so every
asynchronous event is a no-op on the disconnected state; and a second
`disconnect()` is a no-op leaving the state unchanged. -/
theorem disconnect_quiescent_idempotent (cfg : WebSocketConfig)
    (shouldRec : Bool) (s : RWState) (e : ReliableWebSocket.Event)
    (t : TermState) (te : TerminalStore.Event) :
    (ReliableWebSocket.doDisconnect s).reconnectTimer = none ∧
    (ReliableWebSocket.doDisconnect s).pingTimer = false ∧
    (ReliableWebSocket.doDisconnect s).visibilityHandler = false ∧
    (ReliableWebSocket.doDisconnect s).ws = none ∧
    ReliableWebSocket.step cfg shouldRec (ReliableWebSocket.doDisconnect s) e =
      ReliableWebSocket.doDisconnect s ∧
    ReliableWebSocket.doDisconnect (ReliableWebSocket.doDisconnect s) =
      ReliableWebSocket.doDisconnect s ∧
    (TerminalStore.disconnect t).reconnectTimer = none ∧
    (TerminalStore.disconnect t).resizeTimer = none ∧
    (TerminalStore.disconnect t).ws = none ∧
    TerminalStore.step (TerminalStore.disconnect t) te =
      TerminalStore.disconnect t ∧
    TerminalStore.disconnect (TerminalStore.disconnect t) =
      TerminalStore.disconnect t := by
  refine ⟨rfl, rfl, rfl, rfl, ?_, rfl, rfl, rfl, rfl, ?_, rfl⟩
  · cases e <;>
      simp [ReliableWebSocket.step, ReliableWebSocket.doDisconnect]
  · cases te <;>
      simp [TerminalStore.step, TerminalStore.disconnect]

/-- C2: at most one reconnect timer of the Reliable Channel is ever
pending — the scheduling path is a no-op while a reconnect timer is
pending, so two scheduling calls in succession coincide with one, which
leaves exactly one pending reconnect timer. -/
theorem scheduleReconnect_at_most_one_pending (cfg : WebSocketConfig)
    (s : RWState) (d j1 j2 : ℚ) :
    ReliableWebSocket.scheduleReconnect cfg j1
        { s with reconnectTimer := some d } =
      { s with reconnectTimer := some d } ∧
    ReliableWebSocket.scheduleReconnect cfg j2
        (ReliableWebSocket.scheduleReconnect cfg j1 s) =
      ReliableWebSocket.scheduleReconnect cfg j1 s ∧
    (ReliableWebSocket.scheduleReconnect cfg j1 s).reconnectTimer.isSome =
      true := by
  refine ⟨by simp [ReliableWebSocket.scheduleReconnect], ?_, ?_⟩ <;>
    cases h : s.reconnectTimer <;>
      simp [ReliableWebSocket.scheduleReconnect, h]

/-- C3: every scheduled reconnect delay of the Reliable Channel equals
`min(maxReconnectDelay, baseReconnectDelay * 2 ^ attempts + jitter)` with
the jitter sample in `[0, 1000)` ms; the attempt counter increments on
each scheduled reconnect and resets to `0` on a subsequent successful
open; and with the default configuration and zero jitter, for any attempt
count `a ≤ 5` the realized delay is `min(1000 * 2 ^ a, 30000)` ms. -/
theorem scheduleReconnect_backoff (cfg : WebSocketConfig) (s : RWState)
    (j : ℚ) (now a : Nat) (hj0 : 0 ≤ j) (hj1 : j < 1000) :
    ReliableWebSocket.scheduleReconnect cfg j
        { s with reconnectTimer := none } =
      { s with
          reconnectTimer := some (min
            ((cfg.baseReconnectDelay : ℚ) * 2 ^ s.reconnectAttempts + j)
            (cfg.maxReconnectDelay : ℚ)),
          reconnectAttempts := s.reconnectAttempts + 1 } ∧
    (ReliableWebSocket.onOpen now
        { s with ws := some ReadyState.CONNECTING }).reconnectAttempts = 0 ∧
    (a ≤ 5 →
      (ReliableWebSocket.scheduleReconnect DEFAULT_CONFIG 0
          { s with reconnectTimer := none,
                   reconnectAttempts := a }).reconnectTimer =
        some (min ((1000 : ℚ) * 2 ^ a) 30000)) := by
  refine ⟨by simp [ReliableWebSocket.scheduleReconnect], rfl, fun _ => ?_⟩
  simp [ReliableWebSocket.scheduleReconnect, DEFAULT_CONFIG]

/-- Witness for C3 at attempt count 3, default configuration and zero
jitter: the realized delay is 8000 ms. -/
theorem scheduleReconnect_backoff_witness :
    (0 : ℚ) ≤ 0 ∧ (0 : ℚ) < 1000 ∧ (3 : Nat) ≤ 5 ∧
    (ReliableWebSocket.scheduleReconnect DEFAULT_CONFIG 0
        { connected := false, ws := none, pingTimer := false,
          reconnectTimer := none, lastPong := 0, reconnectAttempts := 3,
          visibilityHandler := false, delivered := [],
          sent := [] }).reconnectTimer = some 8000 := by
  refine ⟨le_refl 0, by norm_num, by norm_num, ?_⟩
  have h := (scheduleReconnect_backoff DEFAULT_CONFIG
    { connected := false, ws := none, pingTimer := false,
      reconnectTimer := none, lastPong := 0, reconnectAttempts := 3,
      visibilityHandler := false, delivered := [], sent := [] }
    0 0 3 (le_refl 0) (by norm_num)).2.2 (by norm_num)
  have h2 : some (min ((1000 : ℚ) * 2 ^ (3 : Nat)) 30000) =
      some ((8000 : ℚ)) := by norm_num [min_def]
  exact h.trans h2

/-- C4: connecting the Output Stream Channel to a different target tears
the old connection down synchronously and clears the output buffer — after
switching targets and before any frame of the new target arrives, the
exposed output is the empty string; and connecting to the target the
channel is already connected to is a no-op. -/
theorem connect_target_switch (s : TermState) (A B : String)
    (hws : s.ws.isSome = true) (htgt : s.target = some A) (hAB : A ≠ B)
    (hB : B ≠ "") :
    (TerminalStore.connect s (some B)).output = JValue.str "" ∧
    (TerminalStore.connect s (some B)).target = some B ∧
    (TerminalStore.connect s (some B)).ws = some ReadyState.CONNECTING ∧
    (TerminalStore.connect s (some B)).reconnectTimer = none ∧
    TerminalStore.connect s (some A) = s := by
  have hne : s.target ≠ some B := by
    rw [htgt]; exact fun hc => hAB (Option.some.inj hc)
  refine ⟨?_, ?_, ?_, ?_, ?_⟩
  · simp [TerminalStore.connect, browser, hB, hne]
  · simp [TerminalStore.connect, browser, hB, hne]
  · simp [TerminalStore.connect, browser, hB, hne]
  · simp [TerminalStore.connect, browser, hB, hne]
  · by_cases hA : A = "" <;>
      simp [TerminalStore.connect, browser, hA, hws, htgt]

/-- Witness for C4: a channel showing output `"X"` for target `"A"`,
switched to target `"B"`, shows empty output. -/
theorem connect_target_switch_witness :
    ({ output := JValue.str "X", connected := true,
       ws := some ReadyState.OPEN, reconnectTimer := none,
       target := some "A", resizeTimer := none, lastSentSize := none,
       sent := [] } : TermState).ws.isSome = true ∧
    ("A" : String) ≠ "B" ∧ ("B" : String) ≠ "" ∧
    (TerminalStore.connect
      { output := JValue.str "X", connected := true,
        ws := some ReadyState.OPEN, reconnectTimer := none,
        target := some "A", resizeTimer := none, lastSentSize := none,
        sent := [] } (some "B")).output = JValue.str "" := by
  refine ⟨rfl, by decide, by decide, ?_⟩
  exact (connect_target_switch
    { output := JValue.str "X", connected := true,
      ws := some ReadyState.OPEN, reconnectTimer := none,
      target := some "A", resizeTimer := none, lastSentSize := none,
      sent := [] } "A" "B" rfl rfl (by decide) (by decide)).1

/-- C6 (amended): when listing the record directory fails, the watcher
raises no error and the snapshot becomes empty ("no records"), but —
because the removed-file check sits inside the same `try` block as the
directory listing — the cycle is NOT marked dirty and no subscriber
callback is invoked for that cycle, even when the previous snapshot was
nonempty. -/
theorem watcher_listing_failure_not_dirty {α : Type}
    (lastState : List (String × Nat)) (mt : String → Option Nat)
    (subs : List α) (pt : Bool) (run : α → Option String) :
    SessionWatcher.checkForChanges lastState ⟨none, mt⟩ = ([], false) ∧
    (SessionWatcher.pollTick ⟨subs, pt, lastState⟩ ⟨none, mt⟩ run).2 = [] ∧
    (SessionWatcher.pollTick ⟨subs, pt, lastState⟩ ⟨none, mt⟩
        run).1.lastState = [] :=
  ⟨rfl, rfl, rfl⟩

/-- C6 counterexample to the claim as stated: with a nonempty previous
snapshot and a failed directory listing, the cycle is not dirty and the
(sole) subscriber is not invoked, although the claim requires the cycle to
be marked dirty and every subscriber to be notified. -/
theorem watcher_listing_failure_counterexample :
    (SessionWatcher.checkForChanges [("a.json", 1)]
        ⟨none, fun _ => none⟩).2 = false ∧
    (SessionWatcher.pollTick ⟨[0], true, [("a.json", 1)]⟩
        ⟨none, fun _ => none⟩ (fun _ => none)).2 = [] :=
  ⟨rfl, rfl⟩

/-- C7 (amended): the Reliable Channel consumes an inbound bare `"pong"`
sentinel frame before the consumer's message handler — it is not delivered
as data and only refreshes the pong clock.  The Output Stream Channel
performs no sentinel filtering: its message handler `JSON.parse`s every
frame, so a bare `"pong"` frame raises a parse error that escapes the
handler; the held state (in particular the output buffer) is left
unchanged. -/
theorem pong_sentinel_handling (s : RWState) (t : TermState) (now : Nat) :
    ReliableWebSocket.onMessage now "pong" s = { s with lastPong := now } ∧
    (ReliableWebSocket.onMessage now "pong" s).delivered = s.delivered ∧
    TerminalStore.onMessage t "pong" =
      Except.error "SyntaxError: Unexpected token" ∧
    TerminalStore.step t (TerminalStore.Event.sockMessage "pong") = t := by
  refine ⟨rfl, rfl, rfl, ?_⟩
  have hmsg : TerminalStore.onMessage t "pong" =
      Except.error "SyntaxError: Unexpected token" := rfl
  cases hw : t.ws.isSome <;> simp [TerminalStore.step, hw, hmsg]

/-- C7 counterexample to the claim as stated: on the Output Stream
Channel, processing a bare `"pong"` frame raises an error (the claim
requires it to be silently consumed with no error). -/
theorem outputChannel_pong_error_counterexample :
    TerminalStore.onMessage
      { output := JValue.str "", connected := true,
        ws := some ReadyState.OPEN, reconnectTimer := none,
        target := some "w", resizeTimer := none, lastSentSize := none,
        sent := [] } "pong" =
      Except.error "SyntaxError: Unexpected token" := rfl

/-- The final size of a burst of resize requests: the last element of the
burst (its first request serving as the fallback). -/
def lastReq (calls : List (Nat × Nat)) (p : Nat × Nat) : Nat × Nat :=
  calls.getLastD p

/-- Peeling one request off a burst keeps the same final size. -/
theorem lastReq_cons (calls : List (Nat × Nat)) (p q : Nat × Nat) :
    lastReq (p :: calls) q = lastReq calls p :=
  List.getLastD_cons q p calls

/-- Helper: folding a burst of `sendResize` calls, none of which equals
the last size actually sent, over an open channel only re-arms the resize
timer, finally capturing the last call's size. -/
theorem foldl_sendResize :
    ∀ (calls : List (Nat × Nat)) (s : TermState) (c r : Nat),
      s.ws = some ReadyState.OPEN →
      (∀ p ∈ (c, r) :: calls, s.lastSentSize ≠ some p) →
      ((c, r) :: calls).foldl
          (fun st p => TerminalStore.sendResize st p.1 p.2) s =
        { s with resizeTimer := some ((lastReq calls (c, r)).1, (lastReq calls (c, r)).2, TerminalStore.RESIZE_DEBOUNCE) }
  | [], s, c, r, hws, hsup => by
    have h1 : s.lastSentSize ≠ some (c, r) := hsup (c, r) (by simp)
    simp [TerminalStore.sendResize, hws, h1, lastReq]
  | (c2, r2) :: rest, s, c, r, hws, hsup => by
    have h1 : s.lastSentSize ≠ some (c, r) := hsup (c, r) (by simp)
    have hstep : TerminalStore.sendResize s c r =
        { s with resizeTimer := some (c, r, TerminalStore.RESIZE_DEBOUNCE) } := by
      simp [TerminalStore.sendResize, hws, h1]
    have ih := foldl_sendResize rest
      { s with resizeTimer := some (c, r, TerminalStore.RESIZE_DEBOUNCE) }
      c2 r2 hws (fun p hp => hsup p (by simpa using Or.inr hp))
    simp only [List.foldl_cons] at ih ⊢
    rw [hstep, lastReq_cons]
    simpa using ih

/-- C8: `sendResize` sends nothing when the requested size equals the last
size actually sent; otherwise it defers sending by the 150 ms debounce so
that a burst of calls (none equal to the last sent size) arriving within
the window produces, when the timer fires, exactly one outbound resize
frame carrying only the final size — and a repeated fire emits nothing
further. -/
theorem sendResize_debounce_coalesce (s : TermState) (cols rows : Nat)
    (calls : List (Nat × Nat)) (c r : Nat)
    (hws : s.ws = some ReadyState.OPEN)
    (hsup : ∀ p ∈ (c, r) :: calls, s.lastSentSize ≠ some p) :
    (s.lastSentSize = some (cols, rows) →
      TerminalStore.sendResize s cols rows = s) ∧
    (s.lastSentSize ≠ some (cols, rows) →
      TerminalStore.sendResize s cols rows =
        { s with resizeTimer := some (cols, rows, TerminalStore.RESIZE_DEBOUNCE) }) ∧
    TerminalStore.resizeFire (((c, r) :: calls).foldl
        (fun st p => TerminalStore.sendResize st p.1 p.2) s) =
      { s with sent := s.sent ++ [OutFrame.resize (lastReq calls (c, r)).1 (lastReq calls (c, r)).2], lastSentSize := some (lastReq calls (c, r)), resizeTimer := none } ∧
    TerminalStore.resizeFire (TerminalStore.resizeFire
        (((c, r) :: calls).foldl
          (fun st p => TerminalStore.sendResize st p.1 p.2) s)) =
      TerminalStore.resizeFire (((c, r) :: calls).foldl
        (fun st p => TerminalStore.sendResize st p.1 p.2) s) := by
  have hfold := foldl_sendResize calls s c r hws hsup
  refine ⟨fun h => by simp [TerminalStore.sendResize, h], fun h => by
    simp [TerminalStore.sendResize, hws, h], ?_, ?_⟩
  · rw [hfold]
    simp [TerminalStore.resizeFire, hws]
  · rw [hfold]
    simp [TerminalStore.resizeFire, hws]

/-- Witness for C8: the burst (80,24), (81,24), (82,24) within one
debounce window yields, at the fire, exactly one resize frame, carrying
(82,24). -/
theorem sendResize_debounce_coalesce_witness :
    ({ output := JValue.str "", connected := true,
       ws := some ReadyState.OPEN, reconnectTimer := none,
       target := some "w", resizeTimer := none, lastSentSize := none,
       sent := [] } : TermState).ws = some ReadyState.OPEN ∧
    TerminalStore.resizeFire
        (([((80 : Nat), (24 : Nat)), (81, 24), (82, 24)]).foldl
          (fun st p => TerminalStore.sendResize st p.1 p.2)
          { output := JValue.str "", connected := true,
            ws := some ReadyState.OPEN, reconnectTimer := none,
            target := some "w", resizeTimer := none, lastSentSize := none,
            sent := [] }) =
      { output := JValue.str "", connected := true,
        ws := some ReadyState.OPEN, reconnectTimer := none,
        target := some "w", resizeTimer := none,
        lastSentSize := some (82, 24),
        sent := [OutFrame.resize 82 24] } := by
  refine ⟨rfl, ?_⟩
  have h := (sendResize_debounce_coalesce
    { output := JValue.str "", connected := true,
      ws := some ReadyState.OPEN, reconnectTimer := none,
      target := some "w", resizeTimer := none, lastSentSize := none,
      sent := [] } 0 0 [(81, 24), (82, 24)] 80 24 rfl
    (by intro p hp; simp)).2.2.1
  rw [h]
  rfl

/-- Helper: the notification dispatcher invokes the subscribers in order,
pairing each with its caught outcome; which subscribers are invoked does
not depend on which callbacks throw. -/
theorem notifySubscribers_fst {α : Type} (run : α → Option String) :
    ∀ subs : List α,
      (SessionWatcher.notifySubscribers run subs).map Prod.fst = subs
  | [] => rfl
  | c :: rest => by
    simp [SessionWatcher.notifySubscribers, notifySubscribers_fst run rest]

/-- C9: in every poll cycle in which a change was detected, every
registered subscriber's callback is invoked exactly once for that cycle,
even when other callbacks throw — exceptions are caught at the dispatch
boundary, do not propagate, and the subscriber set (hence future cycles)
is unaffected. -/
theorem watcher_notify_isolation {α : Type} (run : α → Option String)
    (subs : List α) (s : SessionWatcher.State α) (view : DirView) :
    (SessionWatcher.notifySubscribers run subs).map Prod.fst = subs ∧
    (SessionWatcher.pollTick s view run).1.subscribers = s.subscribers ∧
    ((SessionWatcher.checkForChanges s.lastState view).2 = true →
      ((SessionWatcher.pollTick s view run).2).map Prod.fst =
        s.subscribers) := by
  refine ⟨notifySubscribers_fst run subs, ?_, fun hdirty => ?_⟩
  · by_cases h : (SessionWatcher.checkForChanges s.lastState view).2 <;>
      simp [SessionWatcher.pollTick, h]
  · simp [SessionWatcher.pollTick, hdirty, notifySubscribers_fst]

/-- Witness for C9: in a dirty cycle (a record was removed), both
subscribers are invoked although the first one's callback throws. -/
theorem watcher_notify_isolation_witness :
    (SessionWatcher.checkForChanges [("a.json", 1)]
        ⟨some [], fun _ => none⟩).2 = true ∧
    ((SessionWatcher.pollTick ⟨[0, 1], true, [("a.json", 1)]⟩
        ⟨some [], fun _ => none⟩
        (fun i => if i = 0 then some "boom" else none)).2).map Prod.fst =
      [0, 1] := by
  refine ⟨rfl, ?_⟩
  exact (watcher_notify_isolation
    (fun i => if i = 0 then some "boom" else none) [0, 1]
    ⟨[0, 1], true, [("a.json", 1)]⟩ ⟨some [], fun _ => none⟩).2.2 rfl

/-- C10: connecting the Output Stream Channel with an absent or empty
target is a complete no-op — the socket, target, connected flag, output
buffer and every pending timer are left unchanged. -/
theorem connect_falsy_noop (s : TermState) :
    TerminalStore.connect s none = s ∧
    TerminalStore.connect s (some "") = s :=
  ⟨rfl, by simp [TerminalStore.connect, browser]⟩

/-! ### Order facts for the JavaScript sort comparators -/

theorem charListLe_total : ∀ as bs : List Char,
    charListLe as bs = true ∨ charListLe bs as = true
  | [], _ => Or.inl rfl
  | _ :: _, [] => Or.inr rfl
  | a :: as, b :: bs => by
    rcases Nat.lt_trichotomy a.toNat b.toNat with h | h | h
    · exact Or.inl (by simp [charListLe, h])
    · rcases charListLe_total as bs with ih | ih
      · exact Or.inl (by simp [charListLe, h, ih])
      · exact Or.inr (by simp [charListLe, h, ih])
    · exact Or.inr (by simp [charListLe, h])

theorem charListLe_trans : ∀ as bs cs : List Char,
    charListLe as bs = true → charListLe bs cs = true →
      charListLe as cs = true
  | [], _, _, _, _ => rfl
  | _ :: _, [], _, h, _ => by simp [charListLe] at h
  | _ :: _, _ :: _, [], _, h => by simp [charListLe] at h
  | a :: as, b :: bs, c :: cs, h1, h2 => by
    rcases Nat.lt_trichotomy a.toNat b.toNat with hab | hab | hab
    · rcases Nat.lt_trichotomy b.toNat c.toNat with hbc | hbc | hbc
      · simp [charListLe, Nat.lt_trans hab hbc]
      · simp [charListLe, hbc ▸ hab]
      · simp [charListLe, hbc, Nat.lt_asymm hbc] at h2
    · rcases Nat.lt_trichotomy b.toNat c.toNat with hbc | hbc | hbc
      · simp [charListLe, hab ▸ hbc]
      · have h1a : charListLe as bs = true := by simpa [charListLe, hab] using h1
        have h2a : charListLe bs cs = true := by simpa [charListLe, hbc] using h2
        simp [charListLe, hab.trans hbc, charListLe_trans as bs cs h1a h2a]
      · simp [charListLe, hbc, Nat.lt_asymm hbc] at h2
    · simp [charListLe, hab, Nat.lt_asymm hab] at h1

theorem charListLe_antisymm : ∀ as bs : List Char,
    charListLe as bs = true → charListLe bs as = true → as = bs
  | [], [], _, _ => rfl
  | [], _ :: _, _, h => by simp [charListLe] at h
  | _ :: _, [], h, _ => by simp [charListLe] at h
  | a :: as, b :: bs, h1, h2 => by
    rcases Nat.lt_trichotomy a.toNat b.toNat with hab | hab | hab
    · simp [charListLe, hab, Nat.lt_asymm hab] at h2
    · have hchar : a = b := by
        have hc := congrArg Char.ofNat hab
        rwa [Char.ofNat_toNat, Char.ofNat_toNat] at hc
      have h1a : charListLe as bs = true := by simpa [charListLe, hab] using h1
      have h2a : charListLe bs as = true := by simpa [charListLe, hab] using h2
      rw [hchar, charListLe_antisymm as bs h1a h2a]
    · simp [charListLe, hab, Nat.lt_asymm hab] at h1

instance : IsTotal String (fun a b => jsLe a b = true) :=
  ⟨fun a b => charListLe_total a.data b.data⟩

instance : IsTrans String (fun a b => jsLe a b = true) :=
  ⟨fun a b c => charListLe_trans a.data b.data c.data⟩

instance : IsAntisymm String (fun a b => jsLe a b = true) :=
  ⟨fun a b h1 h2 => String.ext (charListLe_antisymm a.data b.data h1 h2)⟩

instance : IsTotal String (fun a b : String => a.length ≤ b.length) :=
  ⟨fun a b => Nat.le_total a.length b.length⟩

instance : IsTrans String (fun a b : String => a.length ≤ b.length) :=
  ⟨fun _ _ _ => Nat.le_trans⟩

/-! ### Prefix facts -/

theorem string_length_data (s : String) : s.data.length = s.length := by
  cases s
  rfl

/-- A project whose slash-extension is a prefix of `s` is strictly shorter
than `s`. -/
theorem jsStartsWith_length {s p : String}
    (h : jsStartsWith s (p ++ "/") = true) : p.length + 1 ≤ s.length := by
  have hpre : (p ++ "/").data <+: s.data := by
    simpa [jsStartsWith] using h
  have hle := hpre.length_le
  rw [string_length_data, string_length_data, String.length_append] at hle
  simpa using hle

/-- Two slash-extended prefixes of the same string with equal lengths are
the same string: the parent of maximal length is unique. -/
theorem elig_len_unique {cwd p1 p2 : String}
    (h1 : jsStartsWith cwd (p1 ++ "/") = true)
    (h2 : jsStartsWith cwd (p2 ++ "/") = true)
    (hlen : p1.length = p2.length) : p1 = p2 := by
  have hp1 : (p1 ++ "/").data <+: cwd.data := by simpa [jsStartsWith] using h1
  have hp2 : (p2 ++ "/").data <+: cwd.data := by simpa [jsStartsWith] using h2
  have hlen1 : (p1 ++ "/").data.length ≤ (p2 ++ "/").data.length := by
    rw [string_length_data, string_length_data, String.length_append,
      String.length_append, hlen]
  have hpre := List.prefix_of_prefix_length_le hp1 hp2 hlen1
  have heq : (p1 ++ "/").data = (p2 ++ "/").data := by
    refine hpre.eq_of_length ?_
    rw [string_length_data, string_length_data, String.length_append,
      String.length_append, hlen]
  have hdata : p1.data = p2.data := by
    have h3 : p1.data ++ ("/" : String).data =
        p2.data ++ ("/" : String).data := by
      simpa [String.data_append] using heq
    exact List.append_cancel_right h3
  exact String.ext hdata

/-! ### The parent search of the project tree -/

/-- The candidates the inner loop of `projectTree` can actually select for
`cwd`: distinct, slash-extending prefix, and already present in the node
map. -/
def CandP (nmCwds : List String) (cwd p : String) : Prop :=
  p ≠ cwd ∧ jsStartsWith cwd (p ++ "/") = true ∧ p ∈ nmCwds

/-- Case analysis of one iteration of the parent-search loop: for a
non-candidate the accumulator is kept; for a candidate either the
candidate's node replaces a shorter (or absent) accumulator, or an at
least as long accumulator is kept. -/
theorem findParentStep_cases (nodeMap : List ProjectNode) (cwd p : String)
    (acc : Option ProjectNode) :
    (findParentStep nodeMap cwd acc p = acc ∧
      ¬ CandP (nodeMap.map ProjectNode.cwd) cwd p) ∨
    (CandP (nodeMap.map ProjectNode.cwd) cwd p ∧
      ((∃ pn, findParentStep nodeMap cwd acc p = some pn ∧ pn.cwd = p ∧
          ∀ m0, acc = some m0 → m0.cwd.length ≤ p.length) ∨
        (findParentStep nodeMap cwd acc p = acc ∧
          ∃ m0, acc = some m0 ∧ p.length ≤ m0.cwd.length))) := by
  by_cases h1 : p = cwd
  · exact Or.inl ⟨by simp [findParentStep, h1], fun hc => hc.1 h1⟩
  · by_cases h2 : jsStartsWith cwd (p ++ "/") = true
    · cases hf : nodeMap.find? (fun n => n.cwd == p) with
      | none =>
        refine Or.inl ⟨by simp [findParentStep, h1, h2, hf], ?_⟩
        rintro ⟨-, -, hmem⟩
        obtain ⟨n, hn, hncwd⟩ := List.mem_map.mp hmem
        have hno := List.find?_eq_none.mp hf n hn
        simp [hncwd] at hno
      | some pn =>
        have hpn_cwd : pn.cwd = p := by
          have hp := List.find?_some hf
          simpa using hp
        have hpn_mem : pn ∈ nodeMap := List.mem_of_find?_eq_some hf
        have hc : CandP (nodeMap.map ProjectNode.cwd) cwd p :=
          ⟨h1, h2, List.mem_map.mpr ⟨pn, hpn_mem, hpn_cwd⟩⟩
        refine Or.inr ⟨hc, ?_⟩
        cases acc with
        | none =>
          exact Or.inl ⟨pn, by simp [findParentStep, h1, h2, hf], hpn_cwd,
            by simp⟩
        | some cur =>
          by_cases hlt : cur.cwd.length < p.length
          · refine Or.inl ⟨pn, by simp [findParentStep, h1, h2, hf, hlt],
              hpn_cwd, ?_⟩
            intro m0 h0
            cases Option.some.inj h0
            exact Nat.le_of_lt hlt
          · exact Or.inr ⟨by simp [findParentStep, h1, h2, hf, hlt],
              cur, rfl, Nat.le_of_not_lt hlt⟩
    · exact Or.inl ⟨by simp [findParentStep, h1, h2], fun hc => h2 hc.2.1⟩

/-- Invariant of the parent-search fold: a `none` result means no
candidate was seen; a `some` result is a candidate at least as long as
the accumulator and as every candidate seen. -/
theorem findParent_go_spec (nodeMap : List ProjectNode) (cwd : String) :
    ∀ (l : List String) (acc : Option ProjectNode),
      (∀ m, acc = some m → CandP (nodeMap.map ProjectNode.cwd) cwd m.cwd) →
      (l.foldl (findParentStep nodeMap cwd) acc = none →
        acc = none ∧
          ∀ p ∈ l, ¬ CandP (nodeMap.map ProjectNode.cwd) cwd p) ∧
      (∀ m, l.foldl (findParentStep nodeMap cwd) acc = some m →
        CandP (nodeMap.map ProjectNode.cwd) cwd m.cwd ∧
        (∀ m0, acc = some m0 → m0.cwd.length ≤ m.cwd.length) ∧
        (∀ p ∈ l, CandP (nodeMap.map ProjectNode.cwd) cwd p →
          p.length ≤ m.cwd.length))
  | [], acc, hacc => by
    refine ⟨fun h => ⟨h, by simp⟩, fun m hm => ⟨hacc m hm, ?_, by simp⟩⟩
    intro m0 h0
    cases Option.some.inj (h0.symm.trans hm)
    exact Nat.le_refl _
  | p :: l, acc, hacc => by
    rcases findParentStep_cases nodeMap cwd p acc with ⟨heq, hnc⟩ |
      ⟨hc, ⟨pn, heq, hcwd, hdom0⟩ | ⟨heq, m0, hm0, hlen⟩⟩
    · obtain ⟨hA, hB⟩ := findParent_go_spec nodeMap cwd l acc hacc
      constructor
      · intro hnone
        rw [List.foldl_cons, heq] at hnone
        obtain ⟨ha1, ha2⟩ := hA hnone
        refine ⟨ha1, ?_⟩
        intro q hq hcq
        rcases List.mem_cons.mp hq with rfl | hq'
        · exact hnc hcq
        · exact ha2 q hq' hcq
      · intro m hm
        rw [List.foldl_cons, heq] at hm
        obtain ⟨hCm, hdom, hall⟩ := hB m hm
        refine ⟨hCm, hdom, ?_⟩
        intro q hq hcq
        rcases List.mem_cons.mp hq with rfl | hq'
        · exact absurd hcq hnc
        · exact hall q hq' hcq
    · have hacc2 : ∀ m, (some pn : Option ProjectNode) = some m →
          CandP (nodeMap.map ProjectNode.cwd) cwd m.cwd := by
        intro m hm
        cases Option.some.inj hm
        rw [hcwd]
        exact hc
      obtain ⟨hA, hB⟩ := findParent_go_spec nodeMap cwd l (some pn) hacc2
      constructor
      · intro hnone
        rw [List.foldl_cons, heq] at hnone
        exact absurd (hA hnone).1 (by simp)
      · intro m hm
        rw [List.foldl_cons, heq] at hm
        obtain ⟨hCm, hdom, hall⟩ := hB m hm
        have hpn_le : pn.cwd.length ≤ m.cwd.length := hdom pn rfl
        refine ⟨hCm, ?_, ?_⟩
        · intro m0 h0
          have hm0p : m0.cwd.length ≤ pn.cwd.length := by
            rw [hcwd]
            exact hdom0 m0 h0
          exact Nat.le_trans hm0p hpn_le
        · intro q hq hcq
          rcases List.mem_cons.mp hq with rfl | hq'
          · calc q.length = pn.cwd.length := by rw [hcwd]
              _ ≤ m.cwd.length := hpn_le
          · exact hall q hq' hcq
    · obtain ⟨hA, hB⟩ := findParent_go_spec nodeMap cwd l acc hacc
      constructor
      · intro hnone
        rw [List.foldl_cons, heq] at hnone
        have ha1 := (hA hnone).1
        rw [ha1] at hm0
        exact absurd hm0 (by simp)
      · intro m hm
        rw [List.foldl_cons, heq] at hm
        obtain ⟨hCm, hdom, hall⟩ := hB m hm
        refine ⟨hCm, hdom, ?_⟩
        intro q hq hcq
        rcases List.mem_cons.mp hq with rfl | hq'
        · exact Nat.le_trans hlen (hdom m0 hm0)
        · exact hall q hq' hcq

/-- Specification of the full parent search. -/
theorem findParent_spec (nodeMap : List ProjectNode) (sorted : List String)
    (cwd : String) :
    (findParent nodeMap sorted cwd = none →
      ∀ p ∈ sorted, ¬ CandP (nodeMap.map ProjectNode.cwd) cwd p) ∧
    (∀ m, findParent nodeMap sorted cwd = some m →
      CandP (nodeMap.map ProjectNode.cwd) cwd m.cwd ∧
      ∀ p ∈ sorted, CandP (nodeMap.map ProjectNode.cwd) cwd p →
        p.length ≤ m.cwd.length) := by
  have h := findParent_go_spec nodeMap cwd sorted none (by simp)
  exact ⟨fun hn => (h.1 hn).2, fun m hm => ⟨(h.2 m hm).1, (h.2 m hm).2.2⟩⟩

/-- While processing a length-sorted project list, a string is a loop
candidate for the current project exactly when it is an eligible parent
anywhere in the list: eligible parents are strictly shorter, hence
already processed and present in the node map. -/
theorem cand_iff_elig {sorted pre rest : List String} {cwd : String}
    (hs : List.Sorted (fun a b : String => a.length ≤ b.length) sorted)
    (hsplit : sorted = pre ++ cwd :: rest) (p : String) :
    CandP pre cwd p ↔ Elig sorted cwd p := by
  constructor
  · rintro ⟨hne, hpre, hmem⟩
    exact ⟨hsplit ▸ List.mem_append_left _ hmem, hne, hpre⟩
  · rintro ⟨hmem, hne, hpre⟩
    refine ⟨hne, hpre, ?_⟩
    rw [hsplit] at hmem
    rcases List.mem_append.mp hmem with h | h
    · exact h
    · rcases List.mem_cons.mp h with rfl | h'
      · exact absurd rfl hne
      · exfalso
        have hlen := jsStartsWith_length hpre
        rw [hsplit] at hs
        have hpair := (List.pairwise_append.mp hs).2.1
        have hcp := (List.pairwise_cons.mp hpair).1 p h'
        omega

/-- Correctness of one node of the built tree: its parent pointer is
`some A` exactly for the unique longest eligible parent `A`, and `none`
exactly when no eligible parent exists. -/
def NodeOK (sorted : List String) (n : ProjectNode) : Prop :=
  (∀ A, n.parentCwd = some A ↔
    (Elig sorted n.cwd A ∧
      ∀ p, Elig sorted n.cwd p → p.length ≤ A.length)) ∧
  (n.parentCwd = none ↔ ∀ p, ¬ Elig sorted n.cwd p)

/-- The node appended for the current project satisfies `NodeOK`. -/
theorem newNode_ok {sorted : List String}
    (hs : List.Sorted (fun a b : String => a.length ≤ b.length) sorted)
    (acc : List ProjectNode) (cwd : String) (rest : List String)
    (hsplit : sorted = acc.map ProjectNode.cwd ++ cwd :: rest) :
    NodeOK sorted (mkNode acc sorted cwd) := by
  unfold mkNode
  have hspec := findParent_spec acc sorted cwd
  have hiff : ∀ p, CandP (acc.map ProjectNode.cwd) cwd p ↔
      Elig sorted cwd p := fun p => cand_iff_elig hs hsplit p
  cases hfp : findParent acc sorted cwd with
  | none =>
    have hnone := hspec.1 hfp
    constructor
    · intro A
      constructor
      · intro h
        simp [hfp] at h
      · rintro ⟨hEA, -⟩
        exact absurd ((hiff A).mpr hEA) (hnone A hEA.1)
    · constructor
      · intro _ p hEp
        exact hnone p hEp.1 ((hiff p).mpr hEp)
      · intro _
        simp [hfp]
  | some m =>
    obtain ⟨hCm, hdom⟩ := hspec.2 m hfp
    have hEm : Elig sorted cwd m.cwd := (hiff m.cwd).mp hCm
    have hmax : ∀ p, Elig sorted cwd p → p.length ≤ m.cwd.length := by
      intro p hEp
      exact hdom p hEp.1 ((hiff p).mpr hEp)
    constructor
    · intro A
      constructor
      · intro h
        simp only [hfp, Option.map_some'] at h
        cases Option.some.inj h
        exact ⟨hEm, hmax⟩
      · rintro ⟨hEA, hAmax⟩
        have hle1 : A.length ≤ m.cwd.length := hmax A hEA
        have hle2 : m.cwd.length ≤ A.length := hAmax m.cwd hEm
        have hAm : m.cwd = A :=
          elig_len_unique hEm.2.2 hEA.2.2 (Nat.le_antisymm hle2 hle1)
        simp [hfp, hAm]
    · constructor
      · intro h
        simp [hfp] at h
      · intro hall
        exact absurd hEm (hall m.cwd)

/-- Invariant of the node-building loop: all nodes built so far are
correct and carry exactly the processed prefix of the sorted list. -/
theorem buildNodesGo_spec {sorted : List String}
    (hs : List.Sorted (fun a b : String => a.length ≤ b.length) sorted) :
    ∀ (rest : List String) (acc : List ProjectNode),
      sorted = acc.map ProjectNode.cwd ++ rest →
      (∀ n ∈ acc, NodeOK sorted n) →
      (buildNodesGo sorted acc rest).map ProjectNode.cwd = sorted ∧
      ∀ n ∈ buildNodesGo sorted acc rest, NodeOK sorted n
  | [], acc, hsplit, hok => by
    constructor
    · rw [buildNodesGo]
      simpa using hsplit.symm
    · rw [buildNodesGo]
      exact hok
  | cwd :: rest, acc, hsplit, hok => by
    have hnode := newNode_ok hs acc cwd rest hsplit
    have hsplit2 : sorted =
        (acc ++ [mkNode acc sorted cwd]).map ProjectNode.cwd ++ rest := by
      simpa [List.map_append, mkNode] using hsplit
    have hok2 : ∀ n ∈ acc ++ [mkNode acc sorted cwd], NodeOK sorted n := by
      intro n hn
      rcases List.mem_append.mp hn with h | h
      · exact hok n h
      · rw [List.mem_singleton.mp h]
        exact hnode
    exact buildNodesGo_spec hs rest _ hsplit2 hok2

/-- Correctness of the whole built tree over a length-sorted project
list. -/
theorem buildNodes_spec (sorted : List String)
    (hs : List.Sorted (fun a b : String => a.length ≤ b.length) sorted) :
    (buildNodes sorted).map ProjectNode.cwd = sorted ∧
    ∀ n ∈ buildNodes sorted, NodeOK sorted n :=
  buildNodesGo_spec hs sorted [] (by simp) (by simp)

theorem sorted_sortByLen (l : List String) :
    List.Sorted (fun a b : String => a.length ≤ b.length) (sortByLen l) :=
  List.sorted_insertionSort _ l

theorem mem_sortByLen {x : String} {l : List String} :
    x ∈ sortByLen l ↔ x ∈ l :=
  (List.perm_insertionSort _ l).mem_iff

/-- Eligibility only depends on the membership of the project list. -/
theorem elig_congr {l1 l2 : List String}
    (h : ∀ x, x ∈ l1 ↔ x ∈ l2) (cwd p : String) :
    Elig l1 cwd p ↔ Elig l2 cwd p := by
  unfold Elig
  rw [h p]

/-- The project tree only depends on the set of cwds: permuting the
session list or the saved projects leaves it unchanged. -/
theorem projectTree_perm {c1 s1 c2 s2 : List String}
    (hc : c1.Perm c2) (hsv : s1.Perm s2) :
    projectTree c1 s1 = projectTree c2 s2 := by
  have hall : allProjects c1 s1 = allProjects c2 s2 := by
    refine List.eq_of_perm_of_sorted ?_
      (List.sorted_insertionSort _ _) (List.sorted_insertionSort _ _)
    have hp := ((hc.filter (fun c => c != "")).append hsv).dedup
    exact ((List.perm_insertionSort _ _).trans hp).trans
      (List.perm_insertionSort _ _).symm
  unfold projectTree
  rw [hall]

/-- The node the parent lookup resolves for a project `B`. -/
theorem parentCwdOf_node {sc sv : List String} {B : String}
    (hB : B ∈ sortByLen (allProjects sc sv)) :
    ∃ m, m ∈ buildNodes (sortByLen (allProjects sc sv)) ∧ m.cwd = B ∧
      parentCwdOf sc sv B = m.parentCwd := by
  obtain ⟨hmap, hok⟩ :=
    buildNodes_spec (sortByLen (allProjects sc sv))
      (sorted_sortByLen (allProjects sc sv))
  have hBmap : B ∈ (buildNodes (sortByLen (allProjects sc sv))).map
      ProjectNode.cwd := by
    rw [hmap]
    exact hB
  obtain ⟨n0, hn0, hcwd0⟩ := List.mem_map.mp hBmap
  have hsome : ((buildNodes (sortByLen (allProjects sc sv))).find?
      (fun n => n.cwd == B)).isSome := by
    refine List.find?_isSome.mpr ⟨n0, hn0, ?_⟩
    simp [hcwd0]
  obtain ⟨m, hm⟩ := Option.isSome_iff_exists.mp hsome
  have hmcwd : m.cwd = B := by
    have hp := List.find?_some hm
    simpa using hp
  refine ⟨m, List.mem_of_find?_eq_some hm, hmcwd, ?_⟩
  unfold parentCwdOf projectTree
  rw [hm]

/-- For a string that is not a project, the parent lookup yields `none`. -/
theorem parentCwdOf_not_mem {sc sv : List String} {B : String}
    (hB : ¬ B ∈ sortByLen (allProjects sc sv)) :
    parentCwdOf sc sv B = none := by
  obtain ⟨hmap, -⟩ :=
    buildNodes_spec (sortByLen (allProjects sc sv))
      (sorted_sortByLen (allProjects sc sv))
  have hfind : (buildNodes (sortByLen (allProjects sc sv))).find?
      (fun n => n.cwd == B) = none := by
    refine List.find?_eq_none.mpr ?_
    intro n hn
    simp only [beq_iff_eq]
    intro hcn
    refine hB ?_
    rw [← hmap]
    exact hcn ▸ List.mem_map_of_mem _ hn
  unfold parentCwdOf projectTree
  rw [hfind]

/-- C5 (amended): over any session list, project A is made the parent of
project B exactly when A is a project distinct from B, `A ++ "/"` is a
prefix of B (the suffix may be empty), and A is the longest such eligible
parent present; projects with no eligible parent are roots; the result is
the same regardless of input iteration order; and on the cwds `/a`,
`/a/b`, `/a/b/c`, `/a/d` the tree places `/a` as root, `/a/b` and `/a/d`
as its children and `/a/b/c` under `/a/b`. -/
theorem projectTree_parenting (sc sv sc2 sv2 : List String) (B A : String) :
    ((projectTree sc sv).map ProjectNode.cwd =
      sortByLen (allProjects sc sv)) ∧
    (parentCwdOf sc sv B = some A ↔
      (B ∈ allProjects sc sv ∧ Elig (allProjects sc sv) B A ∧
        ∀ p, Elig (allProjects sc sv) B p → p.length ≤ A.length)) ∧
    (B ∈ allProjects sc sv →
      (parentCwdOf sc sv B = none ↔
        ∀ p, ¬ Elig (allProjects sc sv) B p)) ∧
    (sc.Perm sc2 → sv.Perm sv2 →
      projectTree sc sv = projectTree sc2 sv2) ∧
    (parentCwdOf ["/a", "/a/b", "/a/b/c", "/a/d"] [] "/a" = none ∧
      parentCwdOf ["/a", "/a/b", "/a/b/c", "/a/d"] [] "/a/b" = some "/a" ∧
      parentCwdOf ["/a", "/a/b", "/a/b/c", "/a/d"] [] "/a/d" = some "/a" ∧
      parentCwdOf ["/a", "/a/b", "/a/b/c", "/a/d"] [] "/a/b/c" =
        some "/a/b") := by
  obtain ⟨hmap, hok⟩ :=
    buildNodes_spec (sortByLen (allProjects sc sv))
      (sorted_sortByLen (allProjects sc sv))
  have hmemi : ∀ x, x ∈ sortByLen (allProjects sc sv) ↔
      x ∈ allProjects sc sv := fun x => mem_sortByLen
  have heligi : ∀ c p, Elig (sortByLen (allProjects sc sv)) c p ↔
      Elig (allProjects sc sv) c p := fun c p => elig_congr hmemi c p
  refine ⟨hmap, ?_, ?_, fun hc hsv => projectTree_perm hc hsv,
    by decide, by decide, by decide, by decide⟩
  · by_cases hB : B ∈ sortByLen (allProjects sc sv)
    · obtain ⟨m, hmem, hmcwd, hpc⟩ := parentCwdOf_node hB
      rw [hpc]
      have h1 := (hok m hmem).1 A
      rw [hmcwd] at h1
      rw [h1]
      constructor
      · rintro ⟨hEA, hmax⟩
        exact ⟨(hmemi B).mp hB, (heligi B A).mp hEA,
          fun p hp => hmax p ((heligi B p).mpr hp)⟩
      · rintro ⟨-, hEA, hmax⟩
        exact ⟨(heligi B A).mpr hEA, fun p hp => hmax p ((heligi B p).mp hp)⟩
    · rw [parentCwdOf_not_mem hB]
      constructor
      · intro h
        exact absurd h (by simp)
      · rintro ⟨hBmem, -, -⟩
        exact absurd ((hmemi B).mpr hBmem) hB
  · intro hBmem
    have hB : B ∈ sortByLen (allProjects sc sv) := (hmemi B).mpr hBmem
    obtain ⟨m, hmem, hmcwd, hpc⟩ := parentCwdOf_node hB
    rw [hpc]
    have h2 := (hok m hmem).2
    rw [hmcwd] at h2
    rw [h2]
    constructor
    · intro h p hp
      exact h p ((heligi B p).mpr hp)
    · intro h p hp
      exact h p ((heligi B p).mp hp)

/-- Witness for C5 (amended): with projects `/a` and `/a/b`, the parent
assigned to `/a/b` is `/a`, which the theorem certifies to be the longest
eligible parent present. -/
theorem projectTree_parenting_witness :
    parentCwdOf ["/a", "/a/b"] [] "/a/b" = some "/a" ∧
    Elig (allProjects ["/a", "/a/b"] []) "/a/b" "/a" ∧
    ∀ p, Elig (allProjects ["/a", "/a/b"] []) "/a/b" p →
      p.length ≤ ("/a" : String).length := by
  have h := (projectTree_parenting ["/a", "/a/b"] [] [] [] "/a/b" "/a").2.1
  have hsome : parentCwdOf ["/a", "/a/b"] [] "/a/b" = some "/a" := by decide
  obtain ⟨-, h2, h3⟩ := h.mp hsome
  exact ⟨hsome, h2, h3⟩

/-- A spec-eligible parent is at least two characters shorter (separator
plus nonempty suffix). -/
theorem specEligible_length {A cwd : String} (h : specEligible A cwd) :
    A.length + 2 ≤ cwd.length := by
  obtain ⟨suf, hne, heq⟩ := h
  have hlen := congrArg String.length heq
  rw [String.length_append, String.length_append] at hlen
  have hsuf : 1 ≤ suf.length := by
    rcases Nat.eq_zero_or_pos suf.length with h0 | h1
    · exfalso
      have hdat : suf.data = [] := by
        have := string_length_data suf
        exact List.length_eq_zero.mp (by omega)
      exact hne (String.ext hdat)
    · exact h1
  have hone : ("/" : String).length = 1 := rfl
  omega

/-- C5 counterexample to the claim as stated: with projects `/a` and
`/a/`, the code assigns `/a` as the parent of `/a/` although no present
project is an eligible parent of `/a/` in the claim's sense (there is no
nonempty suffix), so the claim's "exactly when" fails and `/a/` is not a
root. -/
theorem projectTree_empty_suffix_counterexample :
    parentCwdOf ["/a", "/a/"] [] "/a/" = some "/a" ∧
    ∀ A ∈ (["/a", "/a/"] : List String), ¬ specEligible A "/a/" := by
  refine ⟨by decide, ?_⟩
  intro A hA hspec
  have hlen := specEligible_length hspec
  have h1 : ("/a/" : String).length = 3 := rfl
  rcases List.mem_cons.mp hA with rfl | hA2
  · have h2 : ("/a" : String).length = 2 := rfl
    omega
  · rcases List.mem_cons.mp hA2 with rfl | h3
    · have h2 : ("/a/" : String).length = 3 := rfl
      omega
    · simp at h3

end ClaudeMux
